import Mathlib

/-
Verification development for the vector-creation catalog digitizer.

The repository extracts raster images from scanned catalog PDFs and
associates each image with the printed identifier code (such as "KM# 488")
found in the text below it.  Two association strategies exist in the
source:

* src/extract_image_and_text.py  — column clustering (KMeans on x-centers)
  plus a nearest-below-in-column tie-break;
* src/extract_image_and_text_.py — a band-tolerance policy with fixed
  horizontal and vertical tolerances.

Coordinates are embedded as rationals (the source works on PyMuPDF page
coordinates, exact arithmetic on rationals models the comparisons the
source performs).  Fallible steps are Option/Except valued.  Python dict
insertion, Python string "max", and Python dynamic-typing failures
(TypeError) are modelled explicitly where a claim depends on them.
-/

set_option allowUnsafeReducibility true in
attribute [semireducible] Rat.add Rat.sub Rat.mul Rat.inv Rat.ofScientific

/-- Bounding box of a content block, `(x0, y0, x1, y1)` in page
coordinates, as PyMuPDF reports it (y grows downwards). -/
structure Bbox where
  x0 : ℚ
  y0 : ℚ
  x1 : ℚ
  y1 : ℚ
deriving DecidableEq, Repr

/-- Horizontal center of a bounding box: `(x0 + x1) / 2`
(extract_image_and_text.py line 87 and line 138). -/
def Bbox.xCenter (b : Bbox) : ℚ :=
  (b.x0 + b.x1) / 2

/-- Vertical center of a bounding box: `(y0 + y1) / 2`
(extract_image_and_text.py line 88 and line 139). -/
def Bbox.yCenter (b : Bbox) : ℚ :=
  (b.y0 + b.y1) / 2

/-- An identifier entry derived from a text block: the matched identifier
string, the block's full text, and the block's bounding box
(extract_image_and_text.py lines 66-70, extract_image_and_text_.py
lines 63-67). -/
structure IdEntry where
  id : String
  text : String
  bbox : Bbox
deriving DecidableEq, Repr

/-- One step of the closest-candidate loops of both sources: an eligible
entry replaces the current best exactly when its distance is strictly
smaller (extract_image_and_text.py lines 147-151,
extract_image_and_text_.py lines 92-95).  The accumulator `none` models
the initial state `closest_id = None, min_dist = inf`. -/
def closestStep {α : Type} (elig : α → Bool) (dist : α → ℚ)
    (acc : Option (α × ℚ)) (e : α) : Option (α × ℚ) :=
  if elig e then
    match acc with
    | none => some (e, dist e)
    | some (b, d) => if dist e < d then some (e, dist e) else some (b, d)
  else acc

/-- The closest-candidate loop shared by both association policies:
fold `closestStep` over the identifier entries in list order and return
the best entry, if any. -/
def selectClosest {α : Type} (elig : α → Bool) (dist : α → ℚ)
    (entries : List α) : Option α :=
  (entries.foldl (closestStep elig dist) none).map Prod.fst

/-- Specification shape for the loops: the earliest entry among the
eligible ones attaining the minimal distance.  A head entry wins exactly
when it is eligible and its distance is less than or equal to the best of
the tail, so ties go to the earlier entry. -/
def firstMin {α : Type} (elig : α → Bool) (dist : α → ℚ) :
    List α → Option α
  | [] => none
  | e :: es =>
    match firstMin elig dist es with
    | none => if elig e then some e else none
    | some m =>
      if elig e && decide (dist e ≤ dist m) then some e else some m

theorem foldl_closestStep_some {α : Type} (elig : α → Bool) (dist : α → ℚ)
    (l : List α) (b : α) (d : ℚ) :
    l.foldl (closestStep elig dist) (some (b, d)) =
      match firstMin elig dist l with
      | none => some (b, d)
      | some m => if dist m < d then some (m, dist m) else some (b, d) := by
  induction l generalizing b d with
  | nil => simp [firstMin]
  | cons e es ih =>
    by_cases he : elig e = true
    · by_cases hd : dist e < d
      · have hstep : closestStep elig dist (some (b, d)) e = some (e, dist e) := by
          simp [closestStep, he, hd]
        rw [List.foldl_cons, hstep, ih]
        rcases hm : firstMin elig dist es with _ | m
        · simp [firstMin, hm, he, hd]
        · by_cases hle : dist e ≤ dist m
          · have h1 : ¬ dist m < dist e := not_lt.mpr hle
            simp [firstMin, hm, he, hle, h1, hd]
          · have h2 : dist m < dist e := not_le.mp hle
            have h3 : dist m < d := lt_trans h2 hd
            simp [firstMin, hm, he, hle, h2, h3]
      · have hstep : closestStep elig dist (some (b, d)) e = some (b, d) := by
          simp [closestStep, he, hd]
        rw [List.foldl_cons, hstep, ih]
        rcases hm : firstMin elig dist es with _ | m
        · simp [firstMin, hm, he, hd]
        · by_cases hle : dist e ≤ dist m
          · have h1 : ¬ dist m < d := by
              intro hlt
              exact hd (lt_of_le_of_lt hle hlt)
            simp [firstMin, hm, he, hle, h1, hd]
          · simp [firstMin, hm, he, hle]
    · have he' : elig e = false := by
        simpa using he
      have hstep : closestStep elig dist (some (b, d)) e = some (b, d) := by
        simp [closestStep, he']
      rw [List.foldl_cons, hstep, ih]
      rcases hm : firstMin elig dist es with _ | m
      · simp [firstMin, hm, he']
      · simp [firstMin, hm, he']

theorem selectClosest_eq_firstMin {α : Type} (elig : α → Bool) (dist : α → ℚ)
    (l : List α) :
    selectClosest elig dist l = firstMin elig dist l := by
  induction l with
  | nil => simp [selectClosest, firstMin]
  | cons e es ih =>
    by_cases he : elig e = true
    · have hstep : closestStep elig dist none e = some (e, dist e) := by
        simp [closestStep, he]
      rw [selectClosest, List.foldl_cons, hstep, foldl_closestStep_some]
      rcases hm : firstMin elig dist es with _ | m
      · simp [firstMin, hm, he]
      · by_cases hle : dist e ≤ dist m
        · have h1 : ¬ dist m < dist e := not_lt.mpr hle
          simp [firstMin, hm, he, hle, h1]
        · have h2 : dist m < dist e := not_le.mp hle
          simp [firstMin, hm, he, hle, h2]
    · have he' : elig e = false := by
        simpa using he
      have hstep : closestStep elig dist none e = none := by
        simp [closestStep, he']
      rw [selectClosest, List.foldl_cons, hstep]
      rw [selectClosest] at ih
      rw [ih]
      rcases hm : firstMin elig dist es with _ | m
      · simp [firstMin, hm, he']
      · simp [firstMin, hm, he']

theorem firstMin_mem {α : Type} {elig : α → Bool} {dist : α → ℚ}
    {l : List α} {m : α} (h : firstMin elig dist l = some m) : m ∈ l := by
  induction l with
  | nil => simp [firstMin] at h
  | cons e es ih =>
    rcases hm : firstMin elig dist es with _ | m'
    · rw [firstMin, hm] at h
      by_cases he : elig e = true
      · simp [he] at h
        simp [h]
      · simp [he] at h
    · rw [firstMin, hm] at h
      by_cases hc : (elig e && decide (dist e ≤ dist m')) = true
      · simp [hc] at h
        simp [h]
      · simp [hc] at h
        exact List.mem_cons_of_mem e (ih (h ▸ hm))

theorem firstMin_elig {α : Type} {elig : α → Bool} {dist : α → ℚ}
    {l : List α} {m : α} (h : firstMin elig dist l = some m) :
    elig m = true := by
  induction l with
  | nil => simp [firstMin] at h
  | cons e es ih =>
    rcases hm : firstMin elig dist es with _ | m'
    · rw [firstMin, hm] at h
      by_cases he : elig e = true
      · simp [he] at h
        exact h ▸ he
      · simp [he] at h
    · rw [firstMin, hm] at h
      by_cases hc : (elig e && decide (dist e ≤ dist m')) = true
      · simp [hc] at h
        exact h ▸ (Bool.and_elim_left hc)
      · simp [hc] at h
        exact ih (h ▸ hm)

theorem firstMin_isSome_of_exists {α : Type} {elig : α → Bool} {dist : α → ℚ}
    {l : List α} {e : α} (he : e ∈ l) (helig : elig e = true) :
    (firstMin elig dist l).isSome = true := by
  induction l with
  | nil => simp at he
  | cons x xs ih =>
    rcases List.mem_cons.mp he with h1 | h2
    · rw [firstMin]
      rcases hm : firstMin elig dist xs with _ | m
      · simp [h1 ▸ helig]
      · by_cases hc : (elig x && decide (dist x ≤ dist m)) = true <;> simp [hc]
    · rw [firstMin]
      rcases hm : firstMin elig dist xs with _ | m
      · rw [hm] at ih
        simp at ih
        exact absurd (ih h2) (by simp)
      · by_cases hc : (elig x && decide (dist x ≤ dist m)) = true <;> simp [hc]

theorem firstMin_minimal {α : Type} {elig : α → Bool} {dist : α → ℚ}
    {l : List α} {m : α} (h : firstMin elig dist l = some m) :
    ∀ e ∈ l, elig e = true → dist m ≤ dist e := by
  induction l generalizing m with
  | nil => simp [firstMin] at h
  | cons e es ih =>
    intro x hx hex
    rcases hm : firstMin elig dist es with _ | m'
    · rw [firstMin, hm] at h
      dsimp only at h
      by_cases he : elig e = true
      · rw [if_pos he] at h
        have hem : e = m := Option.some.inj h
        rcases List.mem_cons.mp hx with hx1 | hx2
        · exact le_of_eq (by rw [← hem, hx1])
        · exfalso
          have h1 : (firstMin elig dist es).isSome = true :=
            firstMin_isSome_of_exists hx2 hex
          rw [hm] at h1
          simp at h1
      · rw [if_neg he] at h
        exact absurd h (by simp)
    · rw [firstMin, hm] at h
      dsimp only at h
      by_cases hc : (elig e && decide (dist e ≤ dist m')) = true
      · rw [if_pos hc] at h
        have hem : e = m := Option.some.inj h
        subst hem
        rcases List.mem_cons.mp hx with hx1 | hx2
        · exact le_of_eq (by rw [hx1])
        · have h1 : dist e ≤ dist m' := of_decide_eq_true (Bool.and_elim_right hc)
          exact le_trans h1 (ih hm x hx2 hex)
      · rw [if_neg hc] at h
        have hmm : m' = m := Option.some.inj h
        subst hmm
        rcases List.mem_cons.mp hx with hx1 | hx2
        · by_cases hde : dist m' ≤ dist e
          · rw [← hx1] at hde
            exact hde
          · exfalso
            apply hc
            have h2 : dist e ≤ dist m' := le_of_lt (not_le.mp hde)
            have he2 : elig e = true := hx1 ▸ hex
            simp [he2, h2]
        · exact ih hm x hx2 hex

theorem firstMin_head_of_minimal {α : Type} {elig : α → Bool} {dist : α → ℚ}
    {e : α} {es : List α} (he : elig e = true)
    (hmin : ∀ x ∈ es, elig x = true → dist e ≤ dist x) :
    firstMin elig dist (e :: es) = some e := by
  rw [firstMin]
  rcases hm : firstMin elig dist es with _ | m
  · simp [he]
  · have h1 : dist e ≤ dist m :=
      hmin m (firstMin_mem hm) (firstMin_elig hm)
    simp [he, h1]

/-- Eligibility test of the column-tie-break policy
(extract_image_and_text.py lines 142-147): the entry's predicted cluster
equals the image's cluster, and the entry's vertical center is strictly
greater than the image's vertical center.  The fitted KMeans model is
embedded as its induced assignment function `assign` from x-centers to
cluster labels; the image's own label was produced by the same fitted
model on the image's x-center. -/
def eligible1 (assign : ℚ → ℕ) (imgCluster : ℕ) (imgY : ℚ)
    (ent : IdEntry) : Bool :=
  assign ent.bbox.xCenter == imgCluster && decide (imgY < ent.bbox.yCenter)

/-- Vertical distance of the column policy
(extract_image_and_text.py line 148): `ent_y_center - img_y`. -/
def dist1 (imgY : ℚ) (ent : IdEntry) : ℚ :=
  ent.bbox.yCenter - imgY

/-- The Step 4 inner loop of extract_image_and_text.py (lines 134-151):
closest same-column identifier entry strictly below the image. -/
def closestId1 (assign : ℚ → ℕ) (imgCluster : ℕ) (imgY : ℚ)
    (entries : List IdEntry) : Option IdEntry :=
  selectClosest (eligible1 assign imgCluster imgY) (dist1 imgY) entries

/-- Horizontal tolerance of the band policy
(extract_image_and_text_.py line 16). -/
def horizontal_tolerance : ℚ := 50

/-- Vertical tolerance of the band policy
(extract_image_and_text_.py line 17). -/
def vertical_tolerance : ℚ := -2

/-- Eligibility test of the band-tolerance policy
(extract_image_and_text_.py lines 84-90), mirroring the two skip guards:
the entry is skipped unless its top edge is strictly greater than the
image's bottom edge plus the vertical tolerance, and skipped when its
horizontal center leaves the inclusive band
`[imgX0 - htol, imgX1 + htol]`. -/
def eligible2 (htol vtol : ℚ) (imgBbox : Bbox) (ent : IdEntry) : Bool :=
  !decide (ent.bbox.y0 ≤ imgBbox.y1 + vtol) &&
    !(decide (ent.bbox.xCenter < imgBbox.x0 - htol) ||
      decide (imgBbox.x1 + htol < ent.bbox.xCenter))

/-- Vertical distance of the band policy
(extract_image_and_text_.py line 92): `ent_top - img_y1`. -/
def dist2 (imgBbox : Bbox) (ent : IdEntry) : ℚ :=
  ent.bbox.y0 - imgBbox.y1

/-- The Step 3 inner loop of extract_image_and_text_.py (lines 76-95):
closest in-band identifier entry below the image. -/
def closestId2 (htol vtol : ℚ) (imgBbox : Bbox)
    (entries : List IdEntry) : Option IdEntry :=
  selectClosest (eligible2 htol vtol imgBbox) (dist2 imgBbox) entries

/-- C1: Column-tie-break association.  An entry is eligible iff its
assigned column (the fitted assignment function applied to its x-center)
equals the image's column and its vertical center is strictly greater
than the image's; the engine returns an eligible entry minimizing
`entryVerticalCenter - imageVerticalCenter`, it returns one whenever an
eligible entry exists, and a selected entry is never in a different
column. -/
theorem column_tie_break_association
    (assign : ℚ → ℕ) (imgCluster : ℕ) (imgY : ℚ) (entries : List IdEntry) :
    (∀ ent, eligible1 assign imgCluster imgY ent = true ↔
      (assign ent.bbox.xCenter = imgCluster ∧ imgY < ent.bbox.yCenter)) ∧
    (∀ e, closestId1 assign imgCluster imgY entries = some e →
      e ∈ entries ∧ eligible1 assign imgCluster imgY e = true ∧
      ∀ e' ∈ entries, eligible1 assign imgCluster imgY e' = true →
        e.bbox.yCenter - imgY ≤ e'.bbox.yCenter - imgY) ∧
    ((∃ e ∈ entries, eligible1 assign imgCluster imgY e = true) →
      (closestId1 assign imgCluster imgY entries).isSome = true) ∧
    (∀ e, closestId1 assign imgCluster imgY entries = some e →
      assign e.bbox.xCenter = imgCluster) := by
  have hkey : ∀ e, closestId1 assign imgCluster imgY entries = some e →
      e ∈ entries ∧ eligible1 assign imgCluster imgY e = true ∧
      ∀ e' ∈ entries, eligible1 assign imgCluster imgY e' = true →
        e.bbox.yCenter - imgY ≤ e'.bbox.yCenter - imgY := by
    intro e he
    rw [closestId1, selectClosest_eq_firstMin] at he
    refine ⟨firstMin_mem he, firstMin_elig he, ?_⟩
    intro e' he' helig
    exact firstMin_minimal he e' he' helig
  refine ⟨?_, hkey, ?_, ?_⟩
  · intro ent
    simp [eligible1]
  · rintro ⟨e, he, helig⟩
    rw [closestId1, selectClosest_eq_firstMin]
    exact firstMin_isSome_of_exists he helig
  · intro e he
    have h1 := (hkey e he).2.1
    rw [eligible1] at h1
    exact of_decide_eq_true (Bool.and_elim_left h1)

/-- Sample assignment function for the spec's concrete column example:
x-centers below 50 land in column 0, the rest in column 1. -/
def exAssignC1 : ℚ → ℕ :=
  fun x => if x < 50 then 0 else 1

/-- Column-0 identifier entry with vertical center 150. -/
def entY150 : IdEntry :=
  ⟨"KM# 1", "KM# 1 a", ⟨0, 140, 20, 160⟩⟩

/-- Column-0 identifier entry with vertical center 300. -/
def entY300 : IdEntry :=
  ⟨"KM# 2", "KM# 2 b", ⟨0, 290, 20, 310⟩⟩

/-- Column-1 identifier entry with vertical center 110. -/
def entCol1 : IdEntry :=
  ⟨"KM# 3", "KM# 3 c", ⟨90, 100, 110, 120⟩⟩

/-- Entry list of the spec's concrete column example. -/
def entriesC1 : List IdEntry :=
  [entY300, entCol1, entY150]

theorem column_tie_break_association_witness :
    closestId1 exAssignC1 0 100 entriesC1 = some entY150 ∧
    (∃ e ∈ entriesC1, eligible1 exAssignC1 0 100 e = true) ∧
    entY150 ∈ entriesC1 ∧
    eligible1 exAssignC1 0 100 entY150 = true ∧
    exAssignC1 entY150.bbox.xCenter = 0 ∧
    eligible1 exAssignC1 0 100 entCol1 = false := by
  refine ⟨by decide, ⟨entY150, by decide, by decide⟩, ?_, ?_, ?_, by decide⟩
  · exact ((column_tie_break_association exAssignC1 0 100 entriesC1).2.1
      entY150 (by decide)).1
  · exact ((column_tie_break_association exAssignC1 0 100 entriesC1).2.1
      entY150 (by decide)).2.1
  · exact (column_tie_break_association exAssignC1 0 100 entriesC1).2.2.2
      entY150 (by decide)

/-- C9: Implicit deterministic tie-break.  Both policy loops equal the
structural first-minimum selector, which keeps the earliest entry of the
list when several eligible entries attain the same minimal distance (a
later entry replaces the current best only under a strictly smaller
distance), and an eligible head entry whose distance is less than or
equal to every other eligible distance is always the one selected.
Selection is a function of the entry list, so on identical blocks in
identical order the selected entry is uniquely determined. -/
theorem deterministic_tie_break :
    (∀ (assign : ℚ → ℕ) (imgCluster : ℕ) (imgY : ℚ) (entries : List IdEntry),
      closestId1 assign imgCluster imgY entries =
        firstMin (eligible1 assign imgCluster imgY) (dist1 imgY) entries) ∧
    (∀ (htol vtol : ℚ) (imgBbox : Bbox) (entries : List IdEntry),
      closestId2 htol vtol imgBbox entries =
        firstMin (eligible2 htol vtol imgBbox) (dist2 imgBbox) entries) ∧
    (∀ (assign : ℚ → ℕ) (imgCluster : ℕ) (imgY : ℚ) (e : IdEntry)
        (es : List IdEntry),
      eligible1 assign imgCluster imgY e = true →
      (∀ x ∈ es, eligible1 assign imgCluster imgY x = true →
        dist1 imgY e ≤ dist1 imgY x) →
      closestId1 assign imgCluster imgY (e :: es) = some e) ∧
    (∀ (htol vtol : ℚ) (imgBbox : Bbox) (e : IdEntry) (es : List IdEntry),
      eligible2 htol vtol imgBbox e = true →
      (∀ x ∈ es, eligible2 htol vtol imgBbox x = true →
        dist2 imgBbox e ≤ dist2 imgBbox x) →
      closestId2 htol vtol imgBbox (e :: es) = some e) := by
  refine ⟨?_, ?_, ?_, ?_⟩
  · intro assign imgCluster imgY entries
    exact selectClosest_eq_firstMin _ _ _
  · intro htol vtol imgBbox entries
    exact selectClosest_eq_firstMin _ _ _
  · intro assign imgCluster imgY e es he hmin
    rw [closestId1, selectClosest_eq_firstMin]
    exact firstMin_head_of_minimal he hmin
  · intro htol vtol imgBbox e es he hmin
    rw [closestId2, selectClosest_eq_firstMin]
    exact firstMin_head_of_minimal he hmin

/-- Tie entry at vertical center 150, sharing its distance with
`entY150` but listed after it. -/
def entY150b : IdEntry :=
  ⟨"KM# 9", "KM# 9 z", ⟨10, 145, 30, 155⟩⟩

theorem deterministic_tie_break_witness :
    dist1 100 entY150 = dist1 100 entY150b ∧
    closestId1 exAssignC1 0 100 (entY150 :: [entY150b]) = some entY150 := by
  refine ⟨by decide, ?_⟩
  exact deterministic_tie_break.2.2.1 exAssignC1 0 100 entY150 [entY150b]
    (by decide) (by decide)

/-- Eligibility as sentence C2 words it, for comparison with the source's
`eligible2`: the entry's top edge lies at or below (inclusive) the
image's bottom edge plus the vertical tolerance, and its horizontal
center lies within the inclusive band.  Stated from the claim's words,
not from the source. -/
def claimEligibleC2 (htol vtol : ℚ) (imgBbox : Bbox) (ent : IdEntry) : Bool :=
  decide (imgBbox.y1 + vtol ≤ ent.bbox.y0) &&
    decide (imgBbox.x0 - htol ≤ ent.bbox.xCenter) &&
    decide (ent.bbox.xCenter ≤ imgBbox.x1 + htol)

/-- Image box spanning x in [100, 200] with bottom edge y = 50, the
image of the spec's band-tolerance example. -/
def imgBandC2 : Bbox :=
  ⟨100, 0, 200, 50⟩

/-- Identifier entry whose top edge is exactly at the image's bottom
edge plus the vertical tolerance (50 + (-2) = 48) and whose horizontal
center (200) is inside the band. -/
def entBoundaryC2 : IdEntry :=
  ⟨"KM# 4", "KM# 4 d", ⟨180, 48, 220, 60⟩⟩

/-- C2 counterexample: at the vertical boundary the claim's inclusive
reading declares the entry eligible, but the source's guard
`ent_top <= img_y1 + vertical_tolerance: continue` skips it, so the
claimed characterisation of eligibility is false at this input. -/
theorem band_tolerance_boundary_counterexample :
    entBoundaryC2.bbox.y0 = imgBandC2.y1 + vertical_tolerance ∧
    claimEligibleC2 horizontal_tolerance vertical_tolerance
      imgBandC2 entBoundaryC2 = true ∧
    eligible2 horizontal_tolerance vertical_tolerance
      imgBandC2 entBoundaryC2 = false ∧
    closestId2 horizontal_tolerance vertical_tolerance
      imgBandC2 [entBoundaryC2] = none := by
  decide

/-- Identifier entry centered at x = 245, strictly below the example
image. -/
def ent245C2 : IdEntry :=
  ⟨"KM# 5", "KM# 5 e", ⟨240, 60, 250, 70⟩⟩

/-- Identifier entry centered at x = 260, strictly below the example
image. -/
def ent260C2 : IdEntry :=
  ⟨"KM# 6", "KM# 6 f", ⟨255, 60, 265, 70⟩⟩

/-- C2 (amended): Band-tolerance association, with the vertical boundary
made strict as the source implements it.  An entry is eligible iff its
top edge lies strictly below the image's bottom edge plus the vertical
tolerance (default -2, allowing slight overlap) and its horizontal
center lies within the inclusive band `[imgX0 - H, imgX1 + H]` (default
H = 50); among eligible entries the engine returns one minimizing
`entryTop - imageBottom`, and returns one whenever an eligible entry
exists.  With the default tolerances and an image spanning x in
[100, 200], an entry centered at x = 245 is eligible and one centered at
x = 260 is not. -/
theorem band_tolerance_association
    (htol vtol : ℚ) (imgBbox : Bbox) (entries : List IdEntry) :
    (∀ ent, eligible2 htol vtol imgBbox ent = true ↔
      (imgBbox.y1 + vtol < ent.bbox.y0 ∧
       imgBbox.x0 - htol ≤ ent.bbox.xCenter ∧
       ent.bbox.xCenter ≤ imgBbox.x1 + htol)) ∧
    (∀ e, closestId2 htol vtol imgBbox entries = some e →
      e ∈ entries ∧ eligible2 htol vtol imgBbox e = true ∧
      ∀ e' ∈ entries, eligible2 htol vtol imgBbox e' = true →
        e.bbox.y0 - imgBbox.y1 ≤ e'.bbox.y0 - imgBbox.y1) ∧
    ((∃ e ∈ entries, eligible2 htol vtol imgBbox e = true) →
      (closestId2 htol vtol imgBbox entries).isSome = true) ∧
    horizontal_tolerance = 50 ∧ vertical_tolerance = -2 ∧
    eligible2 horizontal_tolerance vertical_tolerance
      imgBandC2 ent245C2 = true ∧
    eligible2 horizontal_tolerance vertical_tolerance
      imgBandC2 ent260C2 = false := by
  refine ⟨?_, ?_, ?_, by decide, by decide, by decide, by decide⟩
  · intro ent
    rw [eligible2]
    simp only [Bool.and_eq_true, Bool.not_eq_true', Bool.or_eq_false_iff,
      decide_eq_false_iff_not, not_le, not_lt]
  · intro e he
    rw [closestId2, selectClosest_eq_firstMin] at he
    exact ⟨firstMin_mem he, firstMin_elig he,
      fun e' he' helig => firstMin_minimal he e' he' helig⟩
  · rintro ⟨e, he, helig⟩
    rw [closestId2, selectClosest_eq_firstMin]
    exact firstMin_isSome_of_exists he helig

theorem band_tolerance_association_witness :
    closestId2 horizontal_tolerance vertical_tolerance
      imgBandC2 [ent260C2, ent245C2] = some ent245C2 ∧
    ent245C2 ∈ [ent260C2, ent245C2] ∧
    eligible2 horizontal_tolerance vertical_tolerance
      imgBandC2 ent245C2 = true ∧
    (imgBandC2.y1 + vertical_tolerance < ent245C2.bbox.y0 ∧
     imgBandC2.x0 - horizontal_tolerance ≤ ent245C2.bbox.xCenter ∧
     ent245C2.bbox.xCenter ≤ imgBandC2.x1 + horizontal_tolerance) := by
  refine ⟨by decide, ?_, ?_, ?_⟩
  · exact ((band_tolerance_association horizontal_tolerance
      vertical_tolerance imgBandC2 [ent260C2, ent245C2]).2.1
      ent245C2 (by decide)).1
  · exact ((band_tolerance_association horizontal_tolerance
      vertical_tolerance imgBandC2 [ent260C2, ent245C2]).2.1
      ent245C2 (by decide)).2.1
  · exact ((band_tolerance_association horizontal_tolerance
      vertical_tolerance imgBandC2 [ent260C2, ent245C2]).1
      ent245C2).mp (by decide)

/-- Character class `[A-Z]` of the identifier patterns. -/
def isUpperAZ (c : Char) : Bool :=
  'A' ≤ c && c ≤ 'Z'

/-- Character class `\d` of the identifier patterns. -/
def isDigit09 (c : Char) : Bool :=
  '0' ≤ c && c ≤ '9'

/-- Character class `\s` of the identifier patterns, the ASCII whitespace
Python's re matches: space, tab, newline, carriage return, vertical tab,
form feed. -/
def isPySpace (c : Char) : Bool :=
  c = ' ' || c = '\t' || c = '\n' || c = '\r' || c = '\x0b' || c = '\x0c'

/-- Greedy match of the numeric tail `\s*\d+(?:-\d+)?(?:\.\d+)?` of both
identifier patterns at the start of the input; returns the matched
characters and the rest.  The pattern has no alternation and every
quantified class is disjoint from what follows it, so the greedy
left-to-right scan is exactly Python's backtracking semantics. -/
def matchNumTail (cs : List Char) : Option (List Char × List Char) :=
  let sp := cs.takeWhile isPySpace
  let rest1 := cs.dropWhile isPySpace
  let ds := rest1.takeWhile isDigit09
  let rest2 := rest1.dropWhile isDigit09
  if ds.isEmpty then none
  else
    let dashPart : List Char × List Char :=
      match rest2 with
      | '-' :: r =>
        let ds2 := r.takeWhile isDigit09
        if ds2.isEmpty then ([], rest2)
        else ('-' :: ds2, r.dropWhile isDigit09)
      | _ => ([], rest2)
    let dotPart : List Char × List Char :=
      match dashPart.2 with
      | '.' :: r =>
        let ds3 := r.takeWhile isDigit09
        if ds3.isEmpty then ([], dashPart.2)
        else ('.' :: ds3, r.dropWhile isDigit09)
      | _ => ([], dashPart.2)
    some (sp ++ ds ++ dashPart.1 ++ dotPart.1, dotPart.2)

/-- Match of the first-match pattern `[A-Z]+#\s*\d+(?:-\d+)?(?:\.\d+)?`
(extract_image_and_text.py line 29) at the start of the input. -/
def matchUpperIdAt (cs : List Char) : Option (List Char × List Char) :=
  let ups := cs.takeWhile isUpperAZ
  let rest := cs.dropWhile isUpperAZ
  if ups.isEmpty then none
  else
    match rest with
    | '#' :: r => (matchNumTail r).map (fun p => (ups ++ '#' :: p.1, p.2))
    | _ => none

/-- Match of the all-matches pattern `KM#\s*\d+(?:-\d+)?(?:\.\d+)?`
(extract_image_and_text_.py line 20) at the start of the input. -/
def matchKMAt : List Char → Option (List Char × List Char)
  | 'K' :: 'M' :: '#' :: r =>
    (matchNumTail r).map (fun p => ('K' :: 'M' :: '#' :: p.1, p.2))
  | _ => none

/-- Semantics of `re.search`: the leftmost position at which the pattern
matches, greedily. -/
def reSearch (m : List Char → Option (List Char × List Char)) :
    List Char → Option (List Char)
  | [] => (m []).map Prod.fst
  | c :: cs =>
    match m (c :: cs) with
    | some p => some p.1
    | none => reSearch m cs

/-- Fuelled scan of `re.findall`: leftmost non-overlapping matches, the
scan resuming right after each match.  Each step consumes at least one
character, so input length is enough fuel. -/
def reFindAllAux (m : List Char → Option (List Char × List Char)) :
    ℕ → List Char → List (List Char)
  | 0, _ => []
  | _ + 1, [] => []
  | fuel + 1, c :: cs =>
    match m (c :: cs) with
    | some p => p.1 :: reFindAllAux m fuel p.2
    | none => reFindAllAux m fuel cs

/-- Semantics of `re.findall` for the identifier patterns. -/
def reFindAll (m : List Char → Option (List Char × List Char))
    (cs : List Char) : List (List Char) :=
  reFindAllAux m cs.length cs

/-- Python's str.strip(): drop leading and trailing whitespace. -/
def pyStripChars (cs : List Char) : List Char :=
  ((cs.dropWhile isPySpace).reverse.dropWhile isPySpace).reverse

/-- Python's str.strip() on strings. -/
def pyStrip (s : String) : String :=
  ⟨pyStripChars s.data⟩

/-- First-match extraction policy (extract_image_and_text.py lines
61-70): `re.search` on the block's concatenated text, at most one entry,
id and stored text stripped.  The truthiness guard `if match and
match.group(1)` always passes on a successful match because the group is
the whole nonempty pattern. -/
def mkIdEntriesFirst (blockText : String) (bbox : Bbox) : List IdEntry :=
  match reSearch matchUpperIdAt blockText.data with
  | some m => [⟨pyStrip ⟨m⟩, pyStrip blockText, bbox⟩]
  | none => []

/-- All-matches extraction policy (extract_image_and_text_.py lines
55-67): the block text is stripped at construction, `re.findall` yields
one entry per non-overlapping occurrence, each sharing the block's bbox
and text. -/
def mkIdEntriesAll (blockText : String) (bbox : Bbox) : List IdEntry :=
  let bt := pyStrip blockText
  (reFindAll matchKMAt bt.data).map (fun m => ⟨pyStrip ⟨m⟩, bt, bbox⟩)

/-- Sample bounding box for the concrete extraction examples. -/
def bbox0 : Bbox :=
  ⟨0, 0, 10, 10⟩

/-- C6: Identifier extraction policies.  The first-match policy yields at
most one entry; every entry of the all-matches policy shares the block's
bbox and (stripped) full text; on `"KM# 5-10.5 and KM# 6.12"` the
all-matches policy yields both identifiers in left-to-right order while
the first-match policy yields only `"KM# 5-10.5"`; on a text containing
`"KM# 488"` both policies yield `"KM# 488"`. -/
theorem identifier_extraction_policies :
    (∀ (t : String) (b : Bbox), (mkIdEntriesFirst t b).length ≤ 1) ∧
    (∀ (t : String) (b : Bbox), ∀ e ∈ mkIdEntriesAll t b,
      e.text = pyStrip t ∧ e.bbox = b) ∧
    ((mkIdEntriesAll "KM# 5-10.5 and KM# 6.12" bbox0).map IdEntry.id =
        ["KM# 5-10.5", "KM# 6.12"] ∧
      mkIdEntriesFirst "KM# 5-10.5 and KM# 6.12" bbox0 =
        [⟨"KM# 5-10.5", "KM# 5-10.5 and KM# 6.12", bbox0⟩] ∧
      (mkIdEntriesAll "so KM# 488 listed" bbox0).map IdEntry.id =
        ["KM# 488"] ∧
      (mkIdEntriesFirst "so KM# 488 listed" bbox0).map IdEntry.id =
        ["KM# 488"]) := by
  refine ⟨?_, ?_, ?_⟩
  · intro t b
    rw [mkIdEntriesFirst]
    rcases reSearch matchUpperIdAt t.data with _ | m <;> simp
  · intro t b e he
    rw [mkIdEntriesAll] at he
    rcases List.mem_map.mp he with ⟨m, _, hm⟩
    rw [← hm]
    exact ⟨rfl, rfl⟩
  · refine ⟨?_, ?_, ?_, ?_⟩ <;> decide

theorem identifier_extraction_policies_witness :
    (⟨"KM# 5-10.5", "KM# 5-10.5 and KM# 6.12", bbox0⟩ : IdEntry) ∈
      mkIdEntriesAll "KM# 5-10.5 and KM# 6.12" bbox0 ∧
    (⟨"KM# 5-10.5", "KM# 5-10.5 and KM# 6.12", bbox0⟩ : IdEntry).text =
      pyStrip "KM# 5-10.5 and KM# 6.12" ∧
    (⟨"KM# 5-10.5", "KM# 5-10.5 and KM# 6.12", bbox0⟩ : IdEntry).bbox =
      bbox0 :=
  ⟨by decide,
    (identifier_extraction_policies.2.1 "KM# 5-10.5 and KM# 6.12" bbox0
      ⟨"KM# 5-10.5", "KM# 5-10.5 and KM# 6.12", bbox0⟩ (by decide)).1,
    (identifier_extraction_policies.2.1 "KM# 5-10.5 and KM# 6.12" bbox0
      ⟨"KM# 5-10.5", "KM# 5-10.5 and KM# 6.12", bbox0⟩ (by decide)).2⟩

/-- An enumerated embedded-image placement on a page: the xref from
page.get_images(full=True), and the first rect page.get_image_rects(xref)
returns, or none when that lookup raises and the except-continue path is
taken (extract_image_and_text.py lines 92-100). -/
structure Placement where
  xref : ℕ
  rect : Option Bbox
deriving DecidableEq, Repr

/-- The xref search of extract_image_and_text.py lines 91-100: the first
enumerated placement whose rect's top-left corner lies within 2 units of
the block's top-left corner on both axes, scanning in enumeration order
and breaking at the first hit. -/
def findMatchingXref : List Placement → ℚ → ℚ → Option ℕ
  | [], _, _ => none
  | p :: ps, x0, y0 =>
    match p.rect with
    | some r =>
      if |r.x0 - x0| < 2 ∧ |r.y0 - y0| < 2 then some p.xref
      else findMatchingXref ps x0 y0
    | none => findMatchingXref ps x0 y0

/-- A resolved image candidate (extract_image_and_text.py lines 105-110):
xref and the block's bbox; centers are derived from the bbox. -/
structure ImageCand where
  xref : ℕ
  bbox : Bbox
deriving DecidableEq, Repr

/-- Resolution of one image block (extract_image_and_text.py lines
84-110): find the matching xref and drop the block silently when none
matched.  The guard `if not matching_xref` is Python truthiness, so a
matched xref equal to 0 is also dropped. -/
def buildCandidate (pageImages : List Placement) (blockBbox : Bbox) :
    Option ImageCand :=
  match findMatchingXref pageImages blockBbox.x0 blockBbox.y0 with
  | none => none
  | some x => if x = 0 then none else some ⟨x, blockBbox⟩

/-- Step 2 of extract_image_and_text.py: the image_info list of resolved
candidates, with unresolved blocks silently excluded. -/
def buildImageInfo (pageImages : List Placement)
    (imageBlocks : List Bbox) : List ImageCand :=
  imageBlocks.filterMap (buildCandidate pageImages)

/-- One match record as both scripts store it:
{image, page, unique_number, text}. -/
structure Record where
  image : String
  page : ℕ
  unique_number : String
  text : String
deriving DecidableEq, Repr

/-- Python dict assignment `d[k] = v` on an insertion-ordered dict with
integer keys: overwrite in place when the key exists, else append. -/
def pyInsert : List (ℕ × Record) → ℕ → Record → List (ℕ × Record)
  | [], k, v => [(k, v)]
  | (k0, v0) :: rest, k, v =>
    if k0 = k then (k0, v) :: rest else (k0, v0) :: pyInsert rest k v

/-- The record saved for a confirmed match (extract_image_and_text.py
lines 156-173, extract_image_and_text_.py lines 98-112): the filename
derives from the running index and the extracted image's format tag; the
backend's doc.extract_image is modelled by its format-tag function
`ext`. -/
def mkRecord (ext : ℕ → String) (pageNum : ℕ) (idx : ℕ) (xref : ℕ)
    (ent : IdEntry) : Record :=
  ⟨"img_" ++ toString idx ++ "." ++ ext xref, pageNum, ent.id, ent.text⟩

/-- Shared shape of the match-and-save loops (extract_image_and_text.py
Steps 4-5, extract_image_and_text_.py Step 3): for each image in order,
find the best entry; on a match, store a record under the current index
and increment the index; otherwise leave data and index unchanged. -/
def matchFold (best : ImageCand → Option IdEntry) (ext : ℕ → String)
    (pageNum : ℕ) :
    List ImageCand → List (ℕ × Record) × ℕ → List (ℕ × Record) × ℕ
  | [], st => st
  | img :: rest, (data, idx) =>
    match best img with
    | none => matchFold best ext pageNum rest (data, idx)
    | some e =>
      matchFold best ext pageNum rest
        (pyInsert data idx (mkRecord ext pageNum idx img.xref e), idx + 1)

/-- One page's inputs for extract_image_and_text.py: page number, the
identifier entries of Step 1, the page_images enumeration and image
blocks of Step 2, and the assignment function of the KMeans model that
Step 3 fits on the resolved candidates' x-centers.  The fitted model is
embedded as the pure function it induces from an x-center to a cluster
label; fit_predict labels the training points with that same function. -/
structure Page1 where
  num : ℕ
  entries : List IdEntry
  pageImages : List Placement
  imageBlocks : List Bbox
  assign : ℚ → ℕ

/-- Python's sorted(image_info, key=center-y)
(extract_image_and_text.py line 129); insertion with <= places an
earlier element before later equal ones, matching the stable sort. -/
def sortByY (l : List ImageCand) : List ImageCand :=
  List.insertionSort (fun a b => a.bbox.yCenter ≤ b.bbox.yCenter) l

/-- Per-page processing of extract_image_and_text.py (lines 41-175): the
page is skipped when it has no identifier entries, no enumerated page
images, or no resolved candidates; otherwise the resolved candidates are
processed in ascending vertical-center order, each matched with
closestId1 and saved on success.  This models the state after a
successful KMeans fit; image-byte extraction and file writing are
backend effects outside this state. -/
def processPage1 (ext : ℕ → String) (st : List (ℕ × Record) × ℕ)
    (pg : Page1) : List (ℕ × Record) × ℕ :=
  if pg.entries.isEmpty || pg.pageImages.isEmpty then st
  else if (buildImageInfo pg.pageImages pg.imageBlocks).isEmpty then st
  else
    matchFold
      (fun img => closestId1 pg.assign (pg.assign img.bbox.xCenter)
        img.bbox.yCenter pg.entries)
      ext pg.num (sortByY (buildImageInfo pg.pageImages pg.imageBlocks)) st

/-- The whole run of extract_image_and_text.py: data = {},
image_index = 0, pages in ascending order. -/
def run1 (ext : ℕ → String) (pages : List Page1) :
    List (ℕ × Record) × ℕ :=
  pages.foldl (processPage1 ext) ([], 0)

/-- One page's inputs for extract_image_and_text_.py: page number, the
image candidates of Step 1 (one per placement rect), and the identifier
entries of Step 2. -/
structure Page2 where
  num : ℕ
  images : List ImageCand
  entries : List IdEntry
deriving Repr

/-- Per-page processing of extract_image_and_text_.py (lines 32-113):
skip the page without images or without identifier entries, else match
each image in list order with closestId2 under the configured
tolerances, saving a record per confirmed match. -/
def processPage2 (ext : ℕ → String) (st : List (ℕ × Record) × ℕ)
    (pg : Page2) : List (ℕ × Record) × ℕ :=
  if pg.images.isEmpty then st
  else if pg.entries.isEmpty then st
  else
    matchFold
      (fun img => closestId2 horizontal_tolerance vertical_tolerance
        img.bbox pg.entries)
      ext pg.num pg.images st

/-- process_pages of extract_image_and_text_.py over a page list,
threading (data, image_index); the chunked main loop composes such
calls over consecutive ranges, which is the same fold. -/
def process_pages (ext : ℕ → String) (pages : List Page2)
    (st : List (ℕ × Record) × ℕ) : List (ℕ × Record) × ℕ :=
  pages.foldl (processPage2 ext) st

/-- Placement resolving to xref 7 at the top-left corner (0, 90). -/
def placeC7a : Placement :=
  ⟨7, some ⟨0, 90, 20, 110⟩⟩

/-- Placement resolving to xref 8 at the top-left corner (0, 110). -/
def placeC7b : Placement :=
  ⟨8, some ⟨0, 110, 20, 130⟩⟩

/-- Placement resolving to xref 9 at the top-left corner (0, 130). -/
def placeC7c : Placement :=
  ⟨9, some ⟨0, 130, 20, 150⟩⟩

/-- Page with three images in one column, vertical centers 100, 120 and
140, and a single identifier entry below all of them at vertical center
150.  Three candidates keep the page past the KMeans fit (3 samples for
3 requested clusters). -/
def pageC7 : Page1 :=
  ⟨0, [entY150], [placeC7a, placeC7b, placeC7c],
    [⟨0, 90, 20, 110⟩, ⟨0, 110, 20, 130⟩, ⟨0, 130, 20, 150⟩],
    fun _ => 0⟩

/-- C7: Duplicate assignment is permitted.  On a page whose three images
sit in the same column strictly above one single identifier entry, the
engine selects that same entry for every image: all three saved records
carry the identifier and text of entY150, under distinct keys 0, 1 and
2.  No mutual exclusion exists between images and the duplication is
preserved in the output mapping, not deduplicated. -/
theorem duplicate_assignment_permitted :
    processPage1 (fun _ => "png") ([], 0) pageC7 =
      ([(0, ⟨"img_0.png", 0, "KM# 1", "KM# 1 a"⟩),
        (1, ⟨"img_1.png", 0, "KM# 1", "KM# 1 a"⟩),
        (2, ⟨"img_2.png", 0, "KM# 1", "KM# 1 a"⟩)], 3) ∧
    (0, (⟨"img_0.png", 0, entY150.id, entY150.text⟩ : Record)) ∈
      (processPage1 (fun _ => "png") ([], 0) pageC7).1 ∧
    (1, (⟨"img_1.png", 0, entY150.id, entY150.text⟩ : Record)) ∈
      (processPage1 (fun _ => "png") ([], 0) pageC7).1 ∧
    (2, (⟨"img_2.png", 0, entY150.id, entY150.text⟩ : Record)) ∈
      (processPage1 (fun _ => "png") ([], 0) pageC7).1 := by
  decide

/-- Whether an image candidate finds an eligible identifier entry on its
page under the column policy. -/
def matched1 (pg : Page1) (img : ImageCand) : Bool :=
  (closestId1 pg.assign (pg.assign img.bbox.xCenter) img.bbox.yCenter
    pg.entries).isSome

/-- Number of resolved image candidates on a page that find an eligible
match under the column policy. -/
def matchedCount1 (pg : Page1) : ℕ :=
  (buildImageInfo pg.pageImages pg.imageBlocks).countP (matched1 pg)

/-- Whether an image candidate finds an eligible identifier entry on its
page under the band policy. -/
def matched2 (pg : Page2) (img : ImageCand) : Bool :=
  (closestId2 horizontal_tolerance vertical_tolerance img.bbox
    pg.entries).isSome

/-- Number of image candidates on a page that find an eligible match
under the band policy. -/
def matchedCount2 (pg : Page2) : ℕ :=
  pg.images.countP (matched2 pg)

theorem pyInsert_fresh (data : List (ℕ × Record)) (k : ℕ) (v : Record)
    (h : k ∉ data.map Prod.fst) : pyInsert data k v = data ++ [(k, v)] := by
  induction data with
  | nil => rfl
  | cons p rest ih =>
    rw [List.map_cons, List.mem_cons] at h
    push_neg at h
    rw [pyInsert, if_neg (fun hk => h.1 hk.symm), ih h.2, List.cons_append]


theorem matchFold_inv (best : ImageCand → Option IdEntry)
    (ext : ℕ → String) (pageNum : ℕ) (imgs : List ImageCand) :
    ∀ (data : List (ℕ × Record)) (i0 k : ℕ),
      data.map Prod.fst = List.range' i0 k →
      (matchFold best ext pageNum imgs (data, i0 + k)).1.map Prod.fst =
        List.range' i0 (k + imgs.countP (fun i => (best i).isSome)) ∧
      (matchFold best ext pageNum imgs (data, i0 + k)).2 =
        i0 + (k + imgs.countP (fun i => (best i).isSome)) ∧
      data <+: (matchFold best ext pageNum imgs (data, i0 + k)).1 := by
  induction imgs with
  | nil =>
    intro data i0 k hdata
    simp [matchFold, hdata]
  | cons img rest ih =>
    intro data i0 k hdata
    rcases hbest : best img with _ | e
    · have hstep : matchFold best ext pageNum (img :: rest)
          (data, i0 + k) = matchFold best ext pageNum rest
          (data, i0 + k) := by
        simp [matchFold, hbest]
      have hcount : (img :: rest).countP (fun i => (best i).isSome) =
          rest.countP (fun i => (best i).isSome) := by
        simp [List.countP_cons, hbest]
      rw [hstep, hcount]
      exact ih data i0 k hdata
    · have hfresh : i0 + k ∉ data.map Prod.fst := by
        rw [hdata]
        intro hmem
        have h2 := List.mem_range'_1.mp hmem
        omega
      have hins : pyInsert data (i0 + k)
          (mkRecord ext pageNum (i0 + k) img.xref e) =
          data ++ [(i0 + k, mkRecord ext pageNum (i0 + k) img.xref e)] :=
        pyInsert_fresh data (i0 + k) _ hfresh
      have hdata2 : (data ++
          [(i0 + k, mkRecord ext pageNum (i0 + k) img.xref e)]).map
            Prod.fst = List.range' i0 (k + 1) := by
        rw [List.map_append, hdata, List.range'_concat]
        simp
      have hstep : matchFold best ext pageNum (img :: rest)
          (data, i0 + k) = matchFold best ext pageNum rest
          (data ++ [(i0 + k, mkRecord ext pageNum (i0 + k) img.xref e)],
            i0 + (k + 1)) := by
        simp only [matchFold, hbest, hins]
        rw [Nat.add_assoc]
      have hcount : (img :: rest).countP (fun i => (best i).isSome) =
          rest.countP (fun i => (best i).isSome) + 1 := by
        simp [List.countP_cons, hbest]
      have hrec := ih
        (data ++ [(i0 + k, mkRecord ext pageNum (i0 + k) img.xref e)])
        i0 (k + 1) hdata2
      rw [hstep, hcount]
      refine ⟨?_, ?_, ?_⟩
      · rw [hrec.1]
        congr 1
        omega
      · rw [hrec.2.1]
        omega
      · exact (List.prefix_append data _).trans hrec.2.2

theorem buildImageInfo_nil (blocks : List Bbox) :
    buildImageInfo [] blocks = [] := by
  rw [buildImageInfo, List.filterMap_eq_nil_iff]
  intro b _
  rw [buildCandidate]
  rfl

theorem processPage1_inv (ext : ℕ → String) (pg : Page1)
    (data : List (ℕ × Record)) (i0 k : ℕ)
    (hdata : data.map Prod.fst = List.range' i0 k) :
    (processPage1 ext (data, i0 + k) pg).1.map Prod.fst =
      List.range' i0 (k + matchedCount1 pg) ∧
    (processPage1 ext (data, i0 + k) pg).2 =
      i0 + (k + matchedCount1 pg) ∧
    data <+: (processPage1 ext (data, i0 + k) pg).1 := by
  rw [processPage1]
  by_cases h1 : (pg.entries.isEmpty || pg.pageImages.isEmpty) = true
  · rw [if_pos h1]
    have hm : matchedCount1 pg = 0 := by
      have h1' : pg.entries.isEmpty = true ∨ pg.pageImages.isEmpty = true := by
        simpa using h1
      rcases h1' with h2 | h2
      · have he : pg.entries = [] := List.isEmpty_iff.mp h2
        rw [matchedCount1, List.countP_eq_zero]
        intro img _
        simp [matched1, he, closestId1, selectClosest]
      · have hp : pg.pageImages = [] := List.isEmpty_iff.mp h2
        rw [matchedCount1, hp, buildImageInfo_nil]
        rfl
    rw [hm]
    exact ⟨by simpa using hdata, by omega, List.prefix_refl data⟩
  · rw [if_neg h1]
    by_cases h3 : (buildImageInfo pg.pageImages pg.imageBlocks).isEmpty = true
    · rw [if_pos h3]
      have hm : matchedCount1 pg = 0 := by
        rw [matchedCount1, List.isEmpty_iff.mp h3]
        rfl
      rw [hm]
      exact ⟨by simpa using hdata, by omega, List.prefix_refl data⟩
    · rw [if_neg h3]
      have hperm := List.perm_insertionSort
        (fun a b : ImageCand => a.bbox.yCenter ≤ b.bbox.yCenter)
        (buildImageInfo pg.pageImages pg.imageBlocks)
      have hcount : (sortByY (buildImageInfo pg.pageImages
          pg.imageBlocks)).countP (fun i =>
            (closestId1 pg.assign (pg.assign i.bbox.xCenter)
              i.bbox.yCenter pg.entries).isSome) = matchedCount1 pg := by
        rw [matchedCount1]
        exact hperm.countP_eq _
      have h4 := matchFold_inv
        (fun img => closestId1 pg.assign (pg.assign img.bbox.xCenter)
          img.bbox.yCenter pg.entries)
        ext pg.num
        (sortByY (buildImageInfo pg.pageImages pg.imageBlocks))
        data i0 k hdata
      rw [hcount] at h4
      exact h4

theorem processPage2_inv (ext : ℕ → String) (pg : Page2)
    (data : List (ℕ × Record)) (i0 k : ℕ)
    (hdata : data.map Prod.fst = List.range' i0 k) :
    (processPage2 ext (data, i0 + k) pg).1.map Prod.fst =
      List.range' i0 (k + matchedCount2 pg) ∧
    (processPage2 ext (data, i0 + k) pg).2 =
      i0 + (k + matchedCount2 pg) ∧
    data <+: (processPage2 ext (data, i0 + k) pg).1 := by
  rw [processPage2]
  by_cases h1 : pg.images.isEmpty = true
  · rw [if_pos h1]
    have hm : matchedCount2 pg = 0 := by
      rw [matchedCount2, List.isEmpty_iff.mp h1]
      rfl
    rw [hm]
    exact ⟨by simpa using hdata, by omega, List.prefix_refl data⟩
  · rw [if_neg h1]
    by_cases h2 : pg.entries.isEmpty = true
    · rw [if_pos h2]
      have hm : matchedCount2 pg = 0 := by
        have he : pg.entries = [] := List.isEmpty_iff.mp h2
        rw [matchedCount2, List.countP_eq_zero]
        intro img _
        simp [matched2, he, closestId2, selectClosest]
      rw [hm]
      exact ⟨by simpa using hdata, by omega, List.prefix_refl data⟩
    · rw [if_neg h2]
      exact matchFold_inv
        (fun img => closestId2 horizontal_tolerance vertical_tolerance
          img.bbox pg.entries)
        ext pg.num pg.images data i0 k hdata

theorem processPages1_inv (ext : ℕ → String) (pages : List Page1) :
    ∀ (data : List (ℕ × Record)) (i0 k : ℕ),
      data.map Prod.fst = List.range' i0 k →
      (pages.foldl (processPage1 ext) (data, i0 + k)).1.map Prod.fst =
        List.range' i0 (k + (pages.map matchedCount1).sum) ∧
      (pages.foldl (processPage1 ext) (data, i0 + k)).2 =
        i0 + (k + (pages.map matchedCount1).sum) ∧
      data <+: (pages.foldl (processPage1 ext) (data, i0 + k)).1 := by
  induction pages with
  | nil =>
    intro data i0 k hdata
    simp [hdata]
  | cons pg rest ih =>
    intro data i0 k hdata
    have h1 := processPage1_inv ext pg data i0 k hdata
    have h2 := ih (processPage1 ext (data, i0 + k) pg).1 i0
      (k + matchedCount1 pg) h1.1
    have hst : processPage1 ext (data, i0 + k) pg =
        ((processPage1 ext (data, i0 + k) pg).1,
          i0 + (k + matchedCount1 pg)) := by
      rw [← h1.2.1]
    rw [List.foldl_cons, hst]
    refine ⟨?_, ?_, ?_⟩
    · rw [h2.1, List.map_cons, List.sum_cons]
      congr 1
      omega
    · rw [h2.2.1, List.map_cons, List.sum_cons]
      omega
    · exact h1.2.2.trans h2.2.2

theorem processPages2_inv (ext : ℕ → String) (pages : List Page2) :
    ∀ (data : List (ℕ × Record)) (i0 k : ℕ),
      data.map Prod.fst = List.range' i0 k →
      (pages.foldl (processPage2 ext) (data, i0 + k)).1.map Prod.fst =
        List.range' i0 (k + (pages.map matchedCount2).sum) ∧
      (pages.foldl (processPage2 ext) (data, i0 + k)).2 =
        i0 + (k + (pages.map matchedCount2).sum) ∧
      data <+: (pages.foldl (processPage2 ext) (data, i0 + k)).1 := by
  induction pages with
  | nil =>
    intro data i0 k hdata
    simp [hdata]
  | cons pg rest ih =>
    intro data i0 k hdata
    have h1 := processPage2_inv ext pg data i0 k hdata
    have h2 := ih (processPage2 ext (data, i0 + k) pg).1 i0
      (k + matchedCount2 pg) h1.1
    have hst : processPage2 ext (data, i0 + k) pg =
        ((processPage2 ext (data, i0 + k) pg).1,
          i0 + (k + matchedCount2 pg)) := by
      rw [← h1.2.1]
    rw [List.foldl_cons, hst]
    refine ⟨?_, ?_, ?_⟩
    · rw [h2.1, List.map_cons, List.sum_cons]
      congr 1
      omega
    · rw [h2.2.1, List.map_cons, List.sum_cons]
      omega
    · exact h1.2.2.trans h2.2.2

/-- C4: SequenceIndex assignment invariant.  In both pipelines a sequence
index is consumed exactly when a match is confirmed and its record is
stored: starting from an empty mapping, the final index of a run of
extract_image_and_text.py equals the number of resolved images that
found an eligible entry (summed over pages), and the mapping holds
exactly that many records — not one per image.  For process_pages of
extract_image_and_text_.py, starting from any initial index, the final
index is the initial index plus the number of matched images, and the
record count equals the number of matched images. -/
theorem sequence_index_only_on_match :
    (∀ (ext : ℕ → String) (pages : List Page1),
      (run1 ext pages).2 = (pages.map matchedCount1).sum ∧
      (run1 ext pages).1.length = (pages.map matchedCount1).sum) ∧
    (∀ (ext : ℕ → String) (idx0 : ℕ) (pages : List Page2),
      (process_pages ext pages ([], idx0)).2 =
        idx0 + (pages.map matchedCount2).sum ∧
      (process_pages ext pages ([], idx0)).1.length =
        (pages.map matchedCount2).sum) := by
  constructor
  · intro ext pages
    have h := processPages1_inv ext pages [] 0 0 rfl
    simp only [Nat.add_zero, Nat.zero_add] at h
    rw [run1]
    refine ⟨h.2.1, ?_⟩
    have hlen := congrArg List.length h.1
    simpa using hlen
  · intro ext idx0 pages
    have h := processPages2_inv ext pages [] idx0 0 rfl
    simp only [Nat.add_zero, Nat.zero_add] at h
    rw [process_pages]
    refine ⟨h.2.1, ?_⟩
    have hlen := congrArg List.length h.1
    simpa using hlen

/-- C10: Implicit contiguous-key invariant.  For runs that start with an
empty mapping, in both pipelines, the mapping's keys after any prefix of
pages are exactly 0, 1, ..., N-1 in insertion order, where N is the
number of records stored so far, and the mapping after a prefix of pages
is a list prefix of the mapping after the whole run: records are
appended under fresh keys and never overwritten or mutated. -/
theorem contiguous_fresh_keys :
    (∀ (ext : ℕ → String) (pages : List Page1),
      (run1 ext pages).1.map Prod.fst =
        List.range (run1 ext pages).1.length ∧
      ∀ l1 l2, pages = l1 ++ l2 →
        (run1 ext l1).1 <+: (run1 ext pages).1) ∧
    (∀ (ext : ℕ → String) (pages : List Page2),
      (process_pages ext pages ([], 0)).1.map Prod.fst =
        List.range (process_pages ext pages ([], 0)).1.length ∧
      ∀ l1 l2, pages = l1 ++ l2 →
        (process_pages ext l1 ([], 0)).1 <+:
          (process_pages ext pages ([], 0)).1) := by
  constructor
  · intro ext pages
    have h := processPages1_inv ext pages [] 0 0 rfl
    simp only [Nat.add_zero, Nat.zero_add] at h
    constructor
    · have hlen : (pages.foldl (processPage1 ext) ([], 0)).1.length =
          (pages.map matchedCount1).sum := by
        have hl := congrArg List.length h.1
        simpa using hl
      rw [run1, h.1, List.range_eq_range', hlen]
    · intro l1 l2 hsplit
      subst hsplit
      rw [run1, run1, List.foldl_append]
      have h1 := processPages1_inv ext l1 [] 0 0 rfl
      simp only [Nat.add_zero, Nat.zero_add] at h1
      have h2 := processPages1_inv ext l2
        (l1.foldl (processPage1 ext) ([], 0)).1 0
        ((l1.map matchedCount1).sum) h1.1
      simp only [Nat.add_zero, Nat.zero_add] at h2
      have hst : ((l1.foldl (processPage1 ext) ([], 0)).1,
          (l1.map matchedCount1).sum) =
          l1.foldl (processPage1 ext) ([], 0) := by
        rw [← h1.2.1]
      rw [hst] at h2
      exact h2.2.2
  · intro ext pages
    have h := processPages2_inv ext pages [] 0 0 rfl
    simp only [Nat.add_zero, Nat.zero_add] at h
    constructor
    · have hlen : (pages.foldl (processPage2 ext) ([], 0)).1.length =
          (pages.map matchedCount2).sum := by
        have hl := congrArg List.length h.1
        simpa using hl
      rw [process_pages, h.1, List.range_eq_range', hlen]
    · intro l1 l2 hsplit
      subst hsplit
      rw [process_pages, process_pages, List.foldl_append]
      have h1 := processPages2_inv ext l1 [] 0 0 rfl
      simp only [Nat.add_zero, Nat.zero_add] at h1
      have h2 := processPages2_inv ext l2
        (l1.foldl (processPage2 ext) ([], 0)).1 0
        ((l1.map matchedCount2).sum) h1.1
      simp only [Nat.add_zero, Nat.zero_add] at h2
      have hst : ((l1.foldl (processPage2 ext) ([], 0)).1,
          (l1.map matchedCount2).sum) =
          l1.foldl (processPage2 ext) ([], 0) := by
        rw [← h1.2.1]
      rw [hst] at h2
      exact h2.2.2

theorem contiguous_fresh_keys_witness :
    (run1 (fun _ => "png") [pageC7]).1 <+:
      (run1 (fun _ => "png") [pageC7, pageC7]).1 ∧
    (run1 (fun _ => "png") [pageC7, pageC7]).1.map Prod.fst =
      List.range (run1 (fun _ => "png") [pageC7, pageC7]).1.length :=
  ⟨(contiguous_fresh_keys.1 (fun _ => "png") [pageC7, pageC7]).2
      [pageC7] [pageC7] rfl,
    (contiguous_fresh_keys.1 (fun _ => "png") [pageC7, pageC7]).1⟩

theorem findMatchingXref_none_forall (ps : List Placement) (x0 y0 : ℚ)
    (h : findMatchingXref ps x0 y0 = none) :
    ∀ p ∈ ps, ∀ r, p.rect = some r →
      ¬(|r.x0 - x0| < 2 ∧ |r.y0 - y0| < 2) := by
  induction ps with
  | nil => simp
  | cons p ps ih =>
    intro q hq r' hr' hw
    rcases hr : p.rect with _ | r
    · rw [findMatchingXref, hr] at h
      dsimp only at h
      rcases List.mem_cons.mp hq with h1 | h2
      · rw [h1, hr] at hr'
        exact Option.noConfusion hr'
      · exact ih h q h2 r' hr' hw
    · rw [findMatchingXref, hr] at h
      dsimp only at h
      by_cases hc : |r.x0 - x0| < 2 ∧ |r.y0 - y0| < 2
      · rw [if_pos hc] at h
        exact Option.noConfusion h
      · rw [if_neg hc] at h
        rcases List.mem_cons.mp hq with h1 | h2
        · rw [h1, hr] at hr'
          have hrr : r = r' := Option.some.inj hr'
          rw [← hrr] at hw
          exact hc hw
        · exact ih h q h2 r' hr' hw

theorem findMatchingXref_some (ps : List Placement) (x0 y0 : ℚ) (x : ℕ)
    (h : findMatchingXref ps x0 y0 = some x) :
    ∃ p ∈ ps, p.xref = x ∧ ∃ r, p.rect = some r ∧
      |r.x0 - x0| < 2 ∧ |r.y0 - y0| < 2 := by
  induction ps with
  | nil => exact Option.noConfusion h
  | cons p ps ih =>
    rcases hr : p.rect with _ | r
    · rw [findMatchingXref, hr] at h
      dsimp only at h
      rcases ih h with ⟨q, hq, hrest⟩
      exact ⟨q, List.mem_cons_of_mem p hq, hrest⟩
    · rw [findMatchingXref, hr] at h
      dsimp only at h
      by_cases hc : |r.x0 - x0| < 2 ∧ |r.y0 - y0| < 2
      · rw [if_pos hc] at h
        exact ⟨p, List.mem_cons_self p ps, Option.some.inj h, r, hr, hc⟩
      · rw [if_neg hc] at h
        rcases ih h with ⟨q, hq, hrest⟩
        exact ⟨q, List.mem_cons_of_mem p hq, hrest⟩

/-- C8: Image resource resolution.  With nonzero resource references (a
PDF xref is a positive object number), a block resolves iff some
enumerated placement's top-left corner lies within the 2-unit tolerance
of the block's on both axes; a resolved candidate keeps the block's bbox
and the xref of a matching placement; and a block with no matching
placement is silently excluded from the candidate list, leaving the
processing of every other block unchanged. -/
theorem image_resource_resolution
    (pageImages : List Placement)
    (hz : ∀ p ∈ pageImages, p.xref ≠ 0) :
    (∀ b : Bbox, buildCandidate pageImages b = none ↔
      ¬∃ p ∈ pageImages, ∃ r, p.rect = some r ∧
        |r.x0 - b.x0| < 2 ∧ |r.y0 - b.y0| < 2) ∧
    (∀ (b : Bbox) (c : ImageCand), buildCandidate pageImages b = some c →
      c.bbox = b ∧ ∃ p ∈ pageImages, p.xref = c.xref ∧ ∃ r,
        p.rect = some r ∧ |r.x0 - b.x0| < 2 ∧ |r.y0 - b.y0| < 2) ∧
    (∀ (blocks1 blocks2 : List Bbox) (b : Bbox),
      buildCandidate pageImages b = none →
      buildImageInfo pageImages (blocks1 ++ b :: blocks2) =
        buildImageInfo pageImages blocks1 ++
          buildImageInfo pageImages blocks2) := by
  refine ⟨?_, ?_, ?_⟩
  · intro b
    constructor
    · intro h hex
      rcases hex with ⟨p, hp, r, hr, hw⟩
      rw [buildCandidate] at h
      rcases hfind : findMatchingXref pageImages b.x0 b.y0 with _ | x
      · exact findMatchingXref_none_forall _ _ _ hfind p hp r hr hw
      · rw [hfind] at h
        dsimp only at h
        by_cases hx : x = 0
        · rcases findMatchingXref_some _ _ _ _ hfind with ⟨q, hq, hqx, _⟩
          exact hz q hq (hx ▸ hqx)
        · rw [if_neg hx] at h
          exact Option.noConfusion h
    · intro hnone
      rw [buildCandidate]
      rcases hfind : findMatchingXref pageImages b.x0 b.y0 with _ | x
      · rfl
      · exfalso
        rcases findMatchingXref_some _ _ _ _ hfind with ⟨q, hq, _, r, hr, hw⟩
        exact hnone ⟨q, hq, r, hr, hw⟩
  · intro b c h
    rw [buildCandidate] at h
    rcases hfind : findMatchingXref pageImages b.x0 b.y0 with _ | x
    · rw [hfind] at h
      exact Option.noConfusion h
    · rw [hfind] at h
      dsimp only at h
      by_cases hx : x = 0
      · rw [if_pos hx] at h
        exact Option.noConfusion h
      · rw [if_neg hx] at h
        have hc : (⟨x, b⟩ : ImageCand) = c := Option.some.inj h
        rcases findMatchingXref_some _ _ _ _ hfind with ⟨q, hq, hqx, r, hr, hw⟩
        refine ⟨?_, q, hq, ?_, r, hr, hw⟩
        · rw [← hc]
        · rw [← hc, hqx]
  · intro blocks1 blocks2 b hb
    rw [buildImageInfo, buildImageInfo, buildImageInfo,
      List.filterMap_append]
    congr 1
    rw [List.filterMap_cons_none hb]

/-- Concrete placement list for the resolution example: one placement,
xref 7, top-left corner (0, 0). -/
def placementsC8 : List Placement :=
  [⟨7, some ⟨0, 0, 10, 10⟩⟩]

/-- Image block whose top-left corner (1, 1) is within the tolerance of
the placement's corner. -/
def blockNearC8 : Bbox :=
  ⟨1, 1, 20, 30⟩

/-- Image block whose top-left corner (50, 50) matches no placement. -/
def blockFarC8 : Bbox :=
  ⟨50, 50, 60, 60⟩

theorem image_resource_resolution_witness :
    (∀ p ∈ placementsC8, p.xref ≠ 0) ∧
    (¬∃ p ∈ placementsC8, ∃ r, p.rect = some r ∧
      |r.x0 - blockFarC8.x0| < 2 ∧ |r.y0 - blockFarC8.y0| < 2) ∧
    buildImageInfo placementsC8 [blockNearC8, blockFarC8, blockNearC8] =
      buildImageInfo placementsC8 [blockNearC8] ++
        buildImageInfo placementsC8 [blockNearC8] ∧
    buildCandidate placementsC8 blockNearC8 = some ⟨7, blockNearC8⟩ :=
  ⟨by decide,
    (image_resource_resolution placementsC8 (by decide)).1 blockFarC8
      |>.mp (by decide),
    (image_resource_resolution placementsC8 (by decide)).2.2
      [blockNearC8] [blockNearC8] blockFarC8 (by decide),
    by decide⟩

/-- A Python value, as far as the resumption computation of
extract_image_and_text_.py lines 119-128 manipulates one: the keys of a
json.load-ed mapping are str, the literal 1 is an int. -/
inductive PyVal where
  | int (n : ℤ)
  | str (s : String)
deriving DecidableEq, Repr

/-- Python's binary + on such values: int + int adds, str + str
concatenates, and a mixed application raises TypeError, modelled as
none. -/
def pyAdd : PyVal → PyVal → Option PyVal
  | PyVal.int a, PyVal.int b => some (PyVal.int (a + b))
  | PyVal.str a, PyVal.str b => some (PyVal.str (a ++ b))
  | _, _ => none

/-- Python's lexicographic < on strings, comparing code points. -/
def pyStrLtChars : List Char → List Char → Bool
  | [], [] => false
  | [], _ :: _ => true
  | _ :: _, [] => false
  | a :: as, b :: bs =>
    if a.toNat < b.toNat then true
    else if b.toNat < a.toNat then false
    else pyStrLtChars as bs

/-- Python's lexicographic < on str values. -/
def pyStrLt (s t : String) : Bool :=
  pyStrLtChars s.data t.data

/-- Python's max over a nonempty list of strings: the lexicographically
greatest by code point, as Python compares str values. -/
def pyMaxStr (s : String) : List String → String
  | [] => s
  | t :: ts => if pyStrLt s t then pyMaxStr t ts else pyMaxStr s ts

/-- The restart index computation of extract_image_and_text_.py line
128, `max(data.keys(), default=-1) + 1 if data else 0`, applied to the
keys of a mapping loaded by json.load.  A persisted mapping's keys are
the decimal-string forms of the sequence indices (JSON object keys are
strings), so on a nonempty mapping the max is a str and the + 1 is a
str + int application. -/
def startIndexLoaded (keys : List String) : Option PyVal :=
  match keys with
  | [] => some (PyVal.int 0)
  | k :: ks => pyAdd (PyVal.str (pyMaxStr k ks)) (PyVal.int 1)

/-- Resumption index as claim C3 states it: one greater than the maximum
persisted index, zero when none exist.  Stated from the spec's words,
with the keys as the numbers they encode, for comparison with the
source's startIndexLoaded. -/
def specStartIndex (keys : List ℕ) : ℕ :=
  match keys with
  | [] => 0
  | k :: ks => ks.foldl max k + 1

/-- C3: Resumption index continuation fails in the code.  For the
persisted mapping with keys "0" ... "4" (maximum index 4) the claim
requires the first new index to be 5 (specStartIndex), but the source
computes max over the loaded string keys and then adds the int 1 to a
str, which raises TypeError: the restart computation produces no index
at all for any nonempty loaded mapping.  The empty-mapping branch does
return 0 as claimed. -/
theorem resumption_index_type_error :
    startIndexLoaded ["0", "1", "2", "3", "4"] = none ∧
    pyMaxStr "0" ["1", "2", "3", "4"] = "4" ∧
    specStartIndex [0, 1, 2, 3, 4] = 5 ∧
    startIndexLoaded [] = some (PyVal.int 0) := by
  refine ⟨?_, ?_, ?_, ?_⟩ <;> decide

/-- Number of clusters the source passes to KMeans: the constant 3
(extract_image_and_text.py line 118), independent of the page's
candidate count. -/
def sourceNClusters (_candidateCount : ℕ) : ℕ :=
  3

/-- Modelled from the spec: the cluster count section 4.2 requires for a
page, `min(k, candidateCount)` with k = 3; no such computation exists in
the source. -/
def specNClusters (candidateCount : ℕ) : ℕ :=
  min 3 candidateCount

/-- Modelled contract of the external sklearn KMeans.fit: it raises
ValueError when n_samples < n_clusters and fits otherwise (no claim
depends on the labels themselves). -/
def kmeansFitOutcome (nClusters nSamples : ℕ) : Except String Unit :=
  if nSamples < nClusters then
    Except.error "n_samples should be at least n_clusters"
  else Except.ok ()

/-- The Step 3 fit as extract_image_and_text.py performs it on a page's
candidate x-centers (lines 116-120). -/
def fitPageClusters (xCenters : List ℚ) : Except String Unit :=
  kmeansFitOutcome (sourceNClusters xCenters.length) xCenters.length

/-- C5: Column-clusterer degradation is an error in the code.  On a page
with a single image candidate the source still requests 3 clusters
(sourceNClusters), and the KMeans fit errors because 1 sample cannot
fill 3 clusters; the claimed fallback min(3, candidateCount) = 1 would
have fitted without error.  Pages with at least 3 candidates fit without
error. -/
theorem clusterer_degradation_is_error :
    fitPageClusters [(5 : ℚ)] =
      Except.error "n_samples should be at least n_clusters" ∧
    sourceNClusters 1 = 3 ∧
    specNClusters 1 = 1 ∧
    kmeansFitOutcome (specNClusters 1) 1 = Except.ok () ∧
    fitPageClusters [(5 : ℚ), 100, 200] = Except.ok () := by
  refine ⟨rfl, rfl, rfl, rfl, rfl⟩
